import Mathlib

/-!
A formal model of the drovp/save-as-path destination-resolution algorithm.

The source is TypeScript (src/index.ts, src/unusedFilename.ts, src/utils.ts).
Strings are modelled as `List Char`.  The filesystem is an external
collaborator and is modelled as a snapshot predicate `JStr → Bool` telling
which paths are occupied.  Node's `path.posix` helpers (`extname`, `dirname`,
`basename`, `join`, `normalize`), which the source calls, are modelled below
following Node's documented POSIX semantics.  The `unusedFilename` search loop
runs with `maxTries = Infinity` at its default call sites; it is modelled with
an explicit finite budget parameter: every terminating run of the source loop
coincides with the model at any sufficiently large budget.
-/

namespace SaveAsPath

/-- Strings of the modelled program, as lists of characters. -/
abbrev JStr := List Char

/-- Whitespace as trimmed by JavaScript `String.prototype.trim` (the common
ASCII white-space characters plus NBSP and BOM). -/
def jsWhitespaceChar (c : Char) : Bool :=
  c == ' ' || c == '\t' || c == '\n' || c == '\r' ||
  c.toNat == 11 || c.toNat == 12 || c.toNat == 160 || c.toNat == 65279

/-- Model of JavaScript `s.trim()`: drop whitespace from both ends. -/
def jsTrim (s : JStr) : JStr :=
  ((s.dropWhile jsWhitespaceChar).reverse.dropWhile jsWhitespaceChar).reverse

/-- Model of JavaScript `s.toLowerCase()` (ASCII letters, as used here). -/
def toLowerJ (s : JStr) : JStr := s.map Char.toLower

/-- Model of JavaScript `s.toUpperCase()` (ASCII letters, as used here). -/
def toUpperJ (s : JStr) : JStr := s.map Char.toUpper

/-- Model of JavaScript `s.toUpperCase()` on whole names (kept structural so
terms evaluate by reduction). -/
def toUpperS (s : String) : String := String.mk (toUpperJ s.data)

/-- Value of a decimal digit string, as computed by `parseInt(s, 10)` on an
all-digit string. -/
def digitsVal (ds : JStr) : Nat := ds.foldl (fun acc c => acc * 10 + (c.toNat - 48)) 0

/-- The decimal digit character for `d ≤ 9`. -/
def natDigit : Nat → Char
  | 0 => '0'
  | 1 => '1'
  | 2 => '2'
  | 3 => '3'
  | 4 => '4'
  | 5 => '5'
  | 6 => '6'
  | 7 => '7'
  | 8 => '8'
  | 9 => '9'
  | _ => '0'

/-- Fuelled helper for `natRepr`; `natReprAux fuel n` is the decimal digit
string of `n` whenever `n ≤ fuel` (and `n > 0`). -/
def natReprAux : Nat → Nat → JStr
  | 0, _ => []
  | fuel + 1, n => if n = 0 then [] else natReprAux fuel (n / 10) ++ [natDigit (n % 10)]

/-- Decimal representation of a natural number, as produced by JavaScript
template interpolation of a number. -/
def natRepr (n : Nat) : JStr := if n = 0 then ['0'] else natReprAux n n

/-!  Model of Node's `path.posix` helpers used by the source. -/

/-- Model of `path.posix.normalize`: resolve `.` and `..` segments, collapse
repeated separators, keep a trailing separator. One processing step of the
segment stack. -/
def normStep (isAbs : Bool) (acc : List JStr) (seg : JStr) : List JStr :=
  if seg = [] ∨ seg = ['.'] then acc
  else if seg = ['.', '.'] then
    match acc with
    | [] => if isAbs then [] else [seg]
    | top :: rest => if top = ['.', '.'] then seg :: acc else rest
  else seg :: acc

/-- Model of `path.posix.normalize`. -/
def pathNormalize (p : JStr) : JStr :=
  if p = [] then ['.']
  else
    let isAbs := p.head? == some '/'
    let trailing := decide (1 < p.length) && (p.getLast? == some '/')
    let stack := ((p.splitOn '/').foldl (normStep isAbs) []).reverse
    let core := List.intercalate ['/'] stack
    let body :=
      if isAbs then '/' :: core
      else if core = [] then ['.'] else core
    if trailing && !(body.getLast? == some '/') then body ++ ['/'] else body

/-- Model of `path.posix.join` on two parts: concatenate with a separator and
normalize. -/
def pjoin (a b : JStr) : JStr :=
  let joined := if a = [] then b else if b = [] then a else a ++ '/' :: b
  if joined = [] then ['.'] else pathNormalize joined

/-- Model of `path.posix.basename` (one-argument form): the last path segment,
ignoring trailing separators. -/
def pathBasename (p : JStr) : JStr :=
  let r := p.reverse.dropWhile (fun c => c = '/')
  (r.takeWhile (fun c => c ≠ '/')).reverse

/-- Model of `path.posix.basename(p, ext)`: as `pathBasename`, with a proper
suffix `ext` stripped. -/
def pathBasenameExt (p ext : JStr) : JStr :=
  let b := pathBasename p
  if !ext.isEmpty && ext.isSuffixOf b && decide (ext.length < b.length) then
    b.take (b.length - ext.length)
  else b

/-- Model of `path.posix.extname`: the trailing `.xyz` part of the final
segment; empty for dot-files and for `..`. -/
def pathExtname (p : JStr) : JStr :=
  let name := (p.reverse.takeWhile (fun c => c ≠ '/')).reverse
  let revName := name.reverse
  let afterDot := revName.takeWhile (fun c => c ≠ '.')
  if afterDot.length = revName.length then []
  else if name.length - afterDot.length - 1 = 0 then []
  else if name = ['.', '.'] then []
  else '.' :: afterDot.reverse

/-- Model of `path.posix.dirname`. -/
def pathDirname (p : JStr) : JStr :=
  if p = [] then ['.']
  else
    let hasRoot := p.head? == some '/'
    let afterTrail := p.reverse.dropWhile (fun c => c = '/')
    let core := afterTrail.dropWhile (fun c => c ≠ '/')
    let res := (core.drop 1).reverse
    if res = [] then (if hasRoot then ['/'] else ['.'])
    else if hasRoot && decide (res.length = 1) then ['/', '/']
    else res

/-!  utils.ts: path comparison helpers. -/

/-- From utils.ts: `path.trim().replace(/[\\\/]+$/, '')` composed with
`Path.normalize` is `normalizePath`; this is the trailing-separator strip. -/
def stripTrailingSep (p : JStr) : JStr :=
  (p.reverse.dropWhile (fun c => c = '/' || c = '\\')).reverse

/-- utils.ts `normalizePath`: trim, strip trailing separators, then
`Path.normalize`. -/
def normalizePath (p : JStr) : JStr := pathNormalize (stripTrailingSep (jsTrim p))

/-- utils.ts `isWindows`: the model fixes a POSIX platform. -/
def isWindows : Bool := false

/-- utils.ts `isSamePath`: best-effort textual path identity — lower-case on
Windows, then compare normalized forms. -/
def isSamePath (pathA pathB : JStr) : Bool :=
  let a := if isWindows then toLowerJ pathA else pathA
  let b := if isWindows then toLowerJ pathB else pathB
  decide (normalizePath a = normalizePath b)

/-!  unusedFilename.ts: the incrementer engine. -/

/-- unusedFilename.ts `Incrementer`: maps a filename (without extension) and
an extension to the `[originalFilename, incrementedFilename]` pair. -/
def Incrementer := JStr → JStr → JStr × JStr

/-- unusedFilename.ts `MaxTryError`: thrown when the try budget is exhausted;
carries the original and the last tried path. -/
structure MaxTryError where
  originalPath : JStr
  lastTriedPath : JStr
deriving DecidableEq, Repr

/-- Greedy scan for the regex `^(.*)<sep>(\d+)$`, reading the reversed input
after at least one trailing digit was found: extend the digit group only while
no separator match is possible, exactly as the greedy `(.*)` demands. -/
def sepScanGo (sep : Char) : List Char → List Char → Option (JStr × JStr)
  | [], _ => none
  | c :: rest, ds =>
    if c = sep then some (rest.reverse, ds)
    else if c.isDigit then sepScanGo sep rest (c :: ds)
    else none

/-- Match of the regex `^(?<filename>.*)<sep>(?<index>\d+)$` built by
`makeSeparatorIncrementer` (the separator needs no escaping in this direct
model): returns the `filename` and `index` groups. -/
def regexSepMatch (sep : Char) (w : JStr) : Option (JStr × JStr) :=
  match w.reverse with
  | [] => none
  | c :: rest => if c.isDigit then sepScanGo sep rest [c] else none

/-- Match of the regex `^(?<filename>.*)\((?<index>\d+)\)$` used by
`parenthesesIncrementer`: returns the `filename` and `index` groups. -/
def parenMatch (w : JStr) : Option (JStr × JStr) :=
  match w.reverse with
  | ')' :: c :: rest => if c.isDigit then sepScanGo '(' rest [c] else none
  | _ => none

/-- unusedFilename.ts `parenthesesIncrementer`: parse a ` (N)` suffix (index 0
when absent), trim, and emit `filename.ext` and `filename (N+1).ext`. -/
def parenthesesIncrementer : Incrementer := fun inputFilename extension =>
  let fi := match parenMatch inputFilename with
    | some (f, ds) => (f, digitsVal ds)
    | none => (inputFilename, 0)
  let filename := jsTrim fi.1
  (filename ++ extension, filename ++ ' ' :: '(' :: (natRepr (fi.2 + 1) ++ ')' :: extension))

/-- unusedFilename.ts `makeSeparatorIncrementer`: parse a `<sep>N` suffix
(index 0 when absent) and emit `filename.ext` and `filename<sep>N+1.ext`; the
original keeps the untrimmed filename, the incremented one trims it.  The
source separator is a one-character string, modelled as a `Char`. -/
def makeSeparatorIncrementer (separator : Char) : Incrementer := fun inputFilename extension =>
  let fi := match regexSepMatch separator inputFilename with
    | some (f, ds) => (f, digitsVal ds)
    | none => (inputFilename, 0)
  (fi.1 ++ extension, jsTrim fi.1 ++ separator :: (natRepr (fi.2 + 1) ++ extension))

/-- unusedFilename.ts `incrementPath`: split a path into directory, stem and
extension, run the incrementer on the stem, and reassemble both results. -/
def incrementPath (filePath : JStr) (incrementer : Incrementer) : JStr × JStr :=
  let ext := pathExtname filePath
  let dirname := pathDirname filePath
  let r := incrementer (pathBasenameExt filePath ext) ext
  (pjoin dirname r.1, pjoin dirname r.2)

/-- The loop body of unusedFilename.ts `unusedFilename`, with the remaining
try budget made explicit: accept the current path when the decider does,
otherwise either fail with `MaxTryError` (budget exhausted) or increment and
continue. -/
def unusedFilenameGo (incr : Incrementer) (decider : JStr → Bool) :
    Nat → JStr → JStr → Except MaxTryError JStr
  | 0, originalPath, unusedPath =>
    if decider unusedPath then .ok unusedPath else .error ⟨originalPath, unusedPath⟩
  | n + 1, _originalPath, unusedPath =>
    if decider unusedPath then .ok unusedPath
    else unusedFilenameGo incr decider n
      (incrementPath unusedPath incr).1 (incrementPath unusedPath incr).2

/-- unusedFilename.ts `unusedFilename`: search from `filePath` for the first
path the decider accepts; an absent incrementer defaults to
`parenthesesIncrementer`.  The source's default `maxTries` is `Infinity`;
here the budget is an explicit `Nat` (any large enough budget reproduces a
terminating run of the source loop). -/
def unusedFilename (filePath : JStr) (incrementer : Option Incrementer)
    (maxTries : Nat) (decider : JStr → Bool) : Except MaxTryError JStr :=
  let incr := incrementer.getD parenthesesIncrementer
  unusedFilenameGo incr decider maxTries (incrementPath filePath incr).1 filePath

/-- The k-th candidate path evaluated by the search: the base path, then its
successive incrementations. -/
def cand (incr : Incrementer) (filePath : JStr) : Nat → JStr
  | 0 => filePath
  | k + 1 => (incrementPath (cand incr filePath k) incr).2

/-!  index.ts: the destination-resolution pieces. -/

/-- utils.ts `pathIsFree` (imported by index.ts; modelled against the spec's
filesystem existence-check collaborator): true when nothing occupies the path
in the filesystem snapshot `fs`. -/
def pathIsFree (fs : JStr → Bool) (path : JStr) : Bool := !(fs path)

/-- index.ts `incrementers`: the record mapping the incrementer option to an
incrementer; `parentheses` is explicitly `undefined` (`none`), and every
unknown key also yields `undefined`. -/
def incrementers (name : String) : Option Incrementer :=
  if name = "space" then some (makeSeparatorIncrementer ' ')
  else if name = "dash" then some (makeSeparatorIncrementer '-')
  else if name = "underscore" then some (makeSeparatorIncrementer '_')
  else none

/-- index.ts `decider` (inside `saveAsPath`): decides whether a candidate path
can be used, from the filesystem snapshot, the input paths and the
`deleteOriginal` / `overwriteDestination` options. -/
def decider (fs : JStr → Bool) (inputPaths : List JStr)
    (deleteOriginal overwriteDestination : Bool) (path : JStr) : Bool :=
  let pathExists := !(pathIsFree fs path)
  let matchesInputs := inputPaths.any fun inputPath => isSamePath path inputPath
  if matchesInputs && pathExists then deleteOriginal
  else if pathExists then overwriteDestination else true

/-- index.ts `saveAsPath`, destination-resolution step (the
`unusedFilename(outputPath, {incrementer, decider})` call): searches from the
template-expanded `outputPath` using the configured incrementer and the
decider above.  The source passes no `maxTries` (infinite); the model takes
the budget explicitly. -/
def saveAsPathResolve (fs : JStr → Bool) (inputPaths : List JStr)
    (deleteOriginal overwriteDestination : Bool) (incrementerName : String)
    (outputPath : JStr) (maxTries : Nat) : Except MaxTryError JStr :=
  unusedFilename outputPath (incrementers incrementerName) maxTries
    (decider fs inputPaths deleteOriginal overwriteDestination)

/-!  index.ts: lazy checksum computation (the loop over checksum algorithm
names scanning the raw template text). -/

/-- index.ts: the five checksum algorithm names scanned for in the template. -/
def checksumNames : List String := ["crc32", "md5", "sha1", "sha256", "sha512"]

/-- index.ts: the algorithms whose digests are computed for a raw template
string: those whose (lowercase) name occurs as a substring of the lowercased
template.  One list element corresponds to one `await checksumFile(...)`
invocation of the checksum provider. -/
def checksumAlgosUsed (template : JStr) : List String :=
  checksumNames.filter fun n => decide (n.data <:+: toLowerJ template)

/-- index.ts: the checksum variables added to `extraVariables`: for each used
algorithm, the digest under the lowercase name and the uppercased digest under
the uppercase name.  `digestOf` models the external checksum provider applied
to the temporary file. -/
def checksumVariables (digestOf : String → JStr) (template : JStr) : List (String × JStr) :=
  (checksumAlgosUsed template).flatMap fun n =>
    [(n, digestOf n), (toUpperS n, toUpperJ (digestOf n))]

/-!  Template expansion (index.ts `expandTemplate` helper and
`checkSaveAsPathOptions`). -/

/-- The typed error the template expander surfaces for bad templates. -/
structure TemplateError where
  message : String
deriving DecidableEq, Repr

/-- A parsed template: literal text interleaved with variable references. -/
inductive TplPart where
  | lit (text : String)
  | var (name : String)
deriving DecidableEq, Repr

/-- The variable names a parsed template references. -/
def varNames (t : List TplPart) : List String :=
  t.flatMap fun p => match p with
    | .lit _ => []
    | .var n => [n]

/-- Modelled from the spec: the external expression evaluator
(`expand-template-literal`) that `expandTemplate` delegates to.  It replaces
each variable reference by its value from the mapping and fails with a
`TemplateError` (a "name is not defined" reference error) when a referenced
name has no value; it never substitutes an empty string for an unknown
variable. -/
def expandTemplateLiteral (vars : String → Option JStr) :
    List TplPart → Except TemplateError JStr
  | [] => .ok []
  | .lit s :: rest => (expandTemplateLiteral vars rest).map fun r => s.data ++ r
  | .var n :: rest =>
    match vars n with
    | some v => (expandTemplateLiteral vars rest).map fun r => v ++ r
    | none => .error ⟨n ++ " is not defined"⟩

/-- First-match lookup in an association list; entries listed earlier win, so
a JavaScript object spread `{...base, ...override}` is modelled by searching
`override ++ base`. -/
def lookupVar : List (String × JStr) → String → Option JStr
  | [], _ => none
  | p :: rest, n => if n = p.1 then some p.2 else lookupVar rest n

/-- The keys of the path-part (and util) variables `expandTemplate` defines. -/
def pathPartNames : List String :=
  ["path", "srcextname", "srcext", "srcbasename", "filename", "dirname",
   "ext", "extname", "basename", "dirbasename", "time", "uid"]

/-- Stand-in value for the function-valued `time` template util (day.js);
evaluation of call expressions is outside the modelled evaluator. -/
def timeValue : JStr := "dayjs-util".data

/-- Stand-in value for the function-valued `uid` template util. -/
def uidValue : JStr := "uid-util".data

/-- The path-part (and util) variables `expandTemplate` derives from the input
path and the requested output extension (the local `variables` object of
index.ts `expandTemplate`, without the caller extras). -/
def expandTemplateVars (inputPath : JStr) (outputExtension : Option JStr) :
    List (String × JStr) :=
  let dirname := pathDirname inputPath
  let srcextname := pathExtname inputPath
  let srcbasename := pathBasename inputPath
  let filename := pathBasenameExt srcbasename srcextname
  let ext := outputExtension.getD []
  let extnameV := match outputExtension with
    | some e => if e = [] then [] else '.' :: e
    | none => []
  let basenameV := filename ++ extnameV
  [("path", pjoin dirname basenameV),
   ("srcextname", srcextname),
   ("srcext", if srcextname.head? = some '.' then srcextname.tail else srcextname),
   ("srcbasename", srcbasename),
   ("filename", filename),
   ("dirname", dirname),
   ("ext", ext),
   ("extname", extnameV),
   ("basename", basenameV),
   ("dirbasename", pathBasename dirname),
   ("time", timeValue),
   ("uid", uidValue)]

/-- index.ts `expandTemplate`: derive the path-part variables from the input
path and the requested output extension, let `extraVariables` override them,
and run the evaluator on the (parsed) destination template. -/
def expandTemplate (inputPath : JStr) (outputExtension : Option JStr)
    (destination : List TplPart) (extraVariables : List (String × JStr)) :
    Except TemplateError JStr :=
  expandTemplateLiteral
    (lookupVar (extraVariables ++ expandTemplateVars inputPath outputExtension))
    destination

/-- index.ts `checkSaveAsPathOptions`: the stub variable names — platform
folders plus the checksum names in both cases. -/
def templateStubNames : List String :=
  ["tmp", "home", "downloads", "documents", "pictures", "music", "videos", "desktop"]
    ++ checksumNames ++ checksumNames.map toUpperS

/-- The stub value `\x7bname\x7d` the validation entry point substitutes for
a recognized collaborator variable. -/
def stubValue (n : String) : JStr := Char.ofNat 123 :: n.data ++ [Char.ofNat 125]

/-- The stub variable pairs built by `checkSaveAsPathOptions`. -/
def stubPairs : List (String × JStr) := templateStubNames.map fun n => (n, stubValue n)

/-- index.ts `checkSaveAsPathOptions`: validate a destination template by
expanding it against a mock path, target extension `jpg`, and stub values for
every platform-folder and checksum variable (caller extras override stubs);
returns `true` or fails with the expansion's `TemplateError`. -/
def checkSaveAsPathOptions (destination : List TplPart)
    (extraVariables : List (String × JStr)) : Except TemplateError Bool :=
  (expandTemplate "/mock/path/to/file.png".data (some "jpg".data) destination
    (extraVariables ++ stubPairs)).map fun _ => true

/-!  index.ts: moving the temporary file to the output path. -/

/-- An error raised by a filesystem primitive, carrying its platform code. -/
structure FsError where
  code : String
deriving DecidableEq, Repr

/-- How the temporary artifact reached the destination. -/
inductive MoveMethod where
  | renamed
  | copiedThenDeleted
deriving DecidableEq, Repr

/-- index.ts `saveAsPath`, final move step: attempt `FSP.rename`; when it
fails with any code other than `EXDEV` the error is rethrown unchanged, and on
`EXDEV` the cross-device fallback (`FSP.cp` recursive, then `FSP.rm` of the
source) runs instead.  `renameResult` is the outcome of the rename attempt
(`none` = success). -/
def moveTmpToOutputPath (renameResult : Option FsError) : Except FsError MoveMethod :=
  match renameResult with
  | none => .ok .renamed
  | some e => if e.code ≠ "EXDEV" then .error e else .ok .copiedThenDeleted

/-!  Helper lemmas about the decider. -/

/-- A candidate that matches an input path and is occupied is accepted exactly
when `deleteOriginal` is set. -/
theorem decider_of_match_exists (fs : JStr → Bool) (inputs : List JStr)
    (dO oD : Bool) (p : JStr)
    (hm : (inputs.any fun ip => isSamePath p ip) = true) (he : fs p = true) :
    decider fs inputs dO oD p = dO := by
  simp [decider, pathIsFree, hm, he]

/-- A free candidate is always accepted. -/
theorem decider_of_free (fs : JStr → Bool) (inputs : List JStr)
    (dO oD : Bool) (p : JStr) (hf : fs p = false) :
    decider fs inputs dO oD p = true := by
  simp [decider, pathIsFree, hf]

/-- An occupied candidate that matches no input path is accepted exactly when
`overwriteDestination` is set. -/
theorem decider_of_no_match_exists (fs : JStr → Bool) (inputs : List JStr)
    (dO oD : Bool) (p : JStr)
    (hm : (inputs.any fun ip => isSamePath p ip) = false) (he : fs p = true) :
    decider fs inputs dO oD p = oD := by
  simp [decider, pathIsFree, hm, he]

/-!  Helper lemmas about the search loop. -/

/-- The search returns the current path as soon as the decider accepts it. -/
theorem unusedFilenameGo_ok_of_accept (incr : Incrementer) (d : JStr → Bool)
    (n : Nat) (o u : JStr) (h : d u = true) :
    unusedFilenameGo incr d n o u = .ok u := by
  cases n <;> simp [unusedFilenameGo, h]

/-- Candidates relative to the base path shift through one incrementation. -/
theorem cand_succ_shift (incr : Incrementer) (u : JStr) (k : Nat) :
    cand incr u (k + 1) = cand incr (incrementPath u incr).2 k := by
  induction k with
  | zero => rfl
  | succ k ih =>
    have h : cand incr u (k + 2) = (incrementPath (cand incr u (k + 1)) incr).2 := rfl
    rw [h, ih]
    rfl

/-- The search returns the first accepted candidate, in evaluation order. -/
theorem unusedFilenameGo_first_accept (incr : Incrementer) (d : JStr → Bool)
    (k : Nat) :
    ∀ (n : Nat) (o u : JStr), k ≤ n → d (cand incr u k) = true →
      (∀ j, j < k → d (cand incr u j) = false) →
      unusedFilenameGo incr d n o u = .ok (cand incr u k) := by
  induction k with
  | zero => intro n o u _ hacc _; exact unusedFilenameGo_ok_of_accept incr d n o u hacc
  | succ k ih =>
    intro n o u hkn hacc hrej
    have h0 : d u = false := hrej 0 (Nat.succ_pos k)
    cases n with
    | zero => omega
    | succ n' =>
      have hstep : unusedFilenameGo incr d (n' + 1) o u =
          unusedFilenameGo incr d n' (incrementPath u incr).1 (incrementPath u incr).2 := by
        simp [unusedFilenameGo, h0]
      rw [hstep, cand_succ_shift]
      exact ih n' _ _ (by omega)
        (by rw [← cand_succ_shift]; exact hacc)
        (fun j hj => by rw [← cand_succ_shift]; exact hrej (j + 1) (by omega))

/-- When every candidate within the budget is rejected, the search fails with
a `MaxTryError` whose last tried path is the final candidate and whose
original path is the de-suffixed base of the path that produced it. -/
theorem unusedFilenameGo_exhaust (incr : Incrementer) (d : JStr → Bool) :
    ∀ (n : Nat) (o u : JStr), (∀ j, j ≤ n → d (cand incr u j) = false) →
      unusedFilenameGo incr d n o u =
        .error ⟨if n = 0 then o else (incrementPath (cand incr u (n - 1)) incr).1,
                cand incr u n⟩ := by
  intro n
  induction n with
  | zero =>
    intro o u h
    have h0 : d u = false := h 0 (le_refl 0)
    simp [unusedFilenameGo, h0, cand]
  | succ n ih =>
    intro o u h
    have h0 : d u = false := h 0 (by omega)
    have hstep : unusedFilenameGo incr d (n + 1) o u =
        unusedFilenameGo incr d n (incrementPath u incr).1 (incrementPath u incr).2 := by
      simp [unusedFilenameGo, h0]
    rw [hstep, ih _ _ (fun j hj => by rw [← cand_succ_shift]; exact h (j + 1) (by omega))]
    cases n with
    | zero => simp [cand_succ_shift, cand]
    | succ m =>
      have hs : cand incr (incrementPath u incr).2 m = cand incr u (m + 1) :=
        (cand_succ_shift incr u m).symm
      simp [hs, ← cand_succ_shift]

/-- An accepted candidate within the budget guarantees the search succeeds at
that candidate or an earlier one. -/
theorem unusedFilenameGo_exists_ok (incr : Incrementer) (d : JStr → Bool) (k : Nat) :
    ∀ (n : Nat) (o u : JStr), k ≤ n → d (cand incr u k) = true →
      ∃ j, j ≤ k ∧ unusedFilenameGo incr d n o u = .ok (cand incr u j) := by
  induction k with
  | zero =>
    intro n o u _ hacc
    exact ⟨0, le_refl 0, unusedFilenameGo_ok_of_accept incr d n o u hacc⟩
  | succ k ih =>
    intro n o u hkn hacc
    cases hd : d u with
    | true => exact ⟨0, by omega, unusedFilenameGo_ok_of_accept incr d n o u hd⟩
    | false =>
      cases n with
      | zero => omega
      | succ n' =>
        have hstep : unusedFilenameGo incr d (n' + 1) o u =
            unusedFilenameGo incr d n' (incrementPath u incr).1 (incrementPath u incr).2 := by
          simp [unusedFilenameGo, hd]
        obtain ⟨j, hj, hok⟩ := ih n' (incrementPath u incr).1 (incrementPath u incr).2
          (by omega) (by rw [← cand_succ_shift]; exact hacc)
        exact ⟨j + 1, by omega, by rw [hstep, hok, cand_succ_shift]⟩

/-- Unfolding `unusedFilename` into the loop. -/
theorem unusedFilename_eq_go (filePath : JStr) (incrOpt : Option Incrementer)
    (m : Nat) (d : JStr → Bool) :
    unusedFilename filePath incrOpt m d =
      unusedFilenameGo (incrOpt.getD parenthesesIncrementer) d m
        (incrementPath filePath (incrOpt.getD parenthesesIncrementer)).1 filePath := rfl

/-!  Helper lemmas about decimal representations. -/

theorem natDigit_isDigit {d : Nat} (hd : d < 10) : (natDigit d).isDigit = true := by
  interval_cases d <;> rfl

theorem natDigit_toNat {d : Nat} (hd : d < 10) : (natDigit d).toNat = 48 + d := by
  interval_cases d <;> rfl

theorem digitsVal_append_digit (xs : JStr) (c : Char) :
    digitsVal (xs ++ [c]) = digitsVal xs * 10 + (c.toNat - 48) := by
  simp [digitsVal, List.foldl_append]

theorem natReprAux_spec : ∀ (fuel n : Nat), n ≤ fuel →
    (∀ c ∈ natReprAux fuel n, c.isDigit = true) ∧
    digitsVal (natReprAux fuel n) = n ∧
    (natReprAux fuel n = [] ↔ n = 0) := by
  intro fuel
  induction fuel with
  | zero =>
    intro n hn
    interval_cases n
    simp [natReprAux, digitsVal]
  | succ fuel ih =>
    intro n hn
    by_cases h0 : n = 0
    · subst h0; simp [natReprAux, digitsVal]
    · have hdiv : n / 10 ≤ fuel := by omega
      obtain ⟨ihd, ihv, _⟩ := ih (n / 10) hdiv
      have hmod : n % 10 < 10 := Nat.mod_lt _ (by omega)
      have heq : natReprAux (fuel + 1) n = natReprAux fuel (n / 10) ++ [natDigit (n % 10)] := by
        simp [natReprAux, h0]
      refine ⟨?_, ?_, ?_⟩
      · intro c hc
        rw [heq] at hc
        rcases List.mem_append.mp hc with hc | hc
        · exact ihd c hc
        · rw [List.mem_singleton.mp hc]; exact natDigit_isDigit hmod
      · rw [heq, digitsVal_append_digit, ihv, natDigit_toNat hmod]
        omega
      · rw [heq]
        simp [h0]

theorem natRepr_ne_nil (n : Nat) : natRepr n ≠ [] := by
  by_cases h : n = 0
  · subst h; simp [natRepr]
  · simp only [natRepr, if_neg h]
    intro hc
    exact h ((natReprAux_spec n n (le_refl n)).2.2.mp hc)

theorem natRepr_isDigit (n : Nat) : ∀ c ∈ natRepr n, c.isDigit = true := by
  by_cases h : n = 0
  · subst h
    intro c hc
    have hc0 : c = '0' := by simpa [natRepr] using hc
    rw [hc0]
    rfl
  · simp only [natRepr, if_neg h]
    exact (natReprAux_spec n n (le_refl n)).1

theorem digitsVal_natRepr (n : Nat) : digitsVal (natRepr n) = n := by
  by_cases h : n = 0
  · subst h; rfl
  · simp only [natRepr, if_neg h]
    exact (natReprAux_spec n n (le_refl n)).2.1

/-!  Helper lemmas about the suffix-matching regexes. -/

theorem sepScanGo_spec (sep : Char) (hsep : sep.isDigit = false) (rb : List Char) :
    ∀ (rds acc : List Char), (∀ c ∈ rds, c.isDigit = true) →
      sepScanGo sep (rds ++ sep :: rb) acc = some (rb.reverse, rds.reverse ++ acc) := by
  intro rds
  induction rds with
  | nil => intro acc _; simp [sepScanGo]
  | cons c rds ih =>
    intro acc hdig
    have hc : c.isDigit = true := hdig c (List.mem_cons_self c rds)
    have hne : ¬(c = sep) := by
      intro h
      subst h
      exact Bool.noConfusion (hc.symm.trans hsep)
    have hstep : sepScanGo sep ((c :: rds) ++ sep :: rb) acc =
        sepScanGo sep (rds ++ sep :: rb) (c :: acc) := by
      simp [sepScanGo, hne, hc]
    rw [hstep, ih (c :: acc) (fun x hx => hdig x (List.mem_cons_of_mem c hx))]
    simp

theorem regexSepMatch_of_suffix (sep : Char) (hsep : sep.isDigit = false)
    (b ds : JStr) (hne : ds ≠ []) (hdig : ∀ c ∈ ds, c.isDigit = true) :
    regexSepMatch sep (b ++ sep :: ds) = some (b, ds) := by
  obtain ⟨d, rds, hrev⟩ : ∃ d rds, ds.reverse = d :: rds := by
    cases h : ds.reverse with
    | nil =>
      exact absurd (by simpa using congrArg List.reverse h) hne
    | cons d rds => exact ⟨d, rds, rfl⟩
  have hw : (b ++ sep :: ds).reverse = d :: (rds ++ sep :: b.reverse) := by
    rw [List.reverse_append, List.reverse_cons, hrev]
    simp
  have hd : d.isDigit = true := by
    refine hdig d ?_
    rw [← List.mem_reverse, hrev]
    exact List.mem_cons_self _ _
  have hrds : ∀ c ∈ rds, c.isDigit = true := by
    intro c hc
    refine hdig c ?_
    rw [← List.mem_reverse, hrev]
    exact List.mem_cons_of_mem _ hc
  have hred : regexSepMatch sep (b ++ sep :: ds) =
      sepScanGo sep (rds ++ sep :: b.reverse) [d] := by
    unfold regexSepMatch
    rw [hw]
    simp [hd]
  rw [hred, sepScanGo_spec sep hsep b.reverse rds [d] hrds]
  have hds : rds.reverse ++ [d] = ds := by
    rw [← List.reverse_cons, ← hrev, List.reverse_reverse]
  simp [hds]

theorem parenMatch_of_suffix (b ds : JStr) (hne : ds ≠ [])
    (hdig : ∀ c ∈ ds, c.isDigit = true) :
    parenMatch (b ++ '(' :: (ds ++ [')'])) = some (b, ds) := by
  obtain ⟨d, rds, hrev⟩ : ∃ d rds, ds.reverse = d :: rds := by
    cases h : ds.reverse with
    | nil => exact absurd (by simpa using congrArg List.reverse h) hne
    | cons d rds => exact ⟨d, rds, rfl⟩
  have hw : (b ++ '(' :: (ds ++ [')'])).reverse = ')' :: d :: (rds ++ '(' :: b.reverse) := by
    rw [List.reverse_append, List.reverse_cons, List.reverse_append, hrev]
    simp
  have hd : d.isDigit = true := by
    refine hdig d ?_
    rw [← List.mem_reverse, hrev]
    exact List.mem_cons_self _ _
  have hrds : ∀ c ∈ rds, c.isDigit = true := by
    intro c hc
    refine hdig c ?_
    rw [← List.mem_reverse, hrev]
    exact List.mem_cons_of_mem _ hc
  have hred : parenMatch (b ++ '(' :: (ds ++ [')'])) =
      sepScanGo '(' (rds ++ '(' :: b.reverse) [d] := by
    unfold parenMatch
    rw [hw]
    simp [hd]
  rw [hred, sepScanGo_spec '(' (by rfl) b.reverse rds [d] hrds]
  have hds : rds.reverse ++ [d] = ds := by
    rw [← List.reverse_cons, ← hrev, List.reverse_reverse]
  simp [hds]

/-!  Incrementation of an already-suffixed filename. -/

/-- A separator-style filename that already carries the numeric suffix `N`
increments to the suffix `N + 1`. -/
theorem makeSeparatorIncrementer_suffix (sep : Char) (hsep : sep.isDigit = false)
    (b ext : JStr) (N : Nat) :
    makeSeparatorIncrementer sep (b ++ sep :: natRepr N) ext =
      (b ++ ext, jsTrim b ++ sep :: (natRepr (N + 1) ++ ext)) := by
  unfold makeSeparatorIncrementer
  rw [regexSepMatch_of_suffix sep hsep b (natRepr N) (natRepr_ne_nil N) (natRepr_isDigit N)]
  simp [digitsVal_natRepr]

/-- A parentheses-style filename that already carries the numeric suffix
`(N)` increments to the suffix `(N + 1)`. -/
theorem parenthesesIncrementer_suffix (b ext : JStr) (N : Nat) :
    parenthesesIncrementer (b ++ '(' :: (natRepr N ++ [')'])) ext =
      (jsTrim b ++ ext, jsTrim b ++ ' ' :: '(' :: (natRepr (N + 1) ++ ')' :: ext)) := by
  unfold parenthesesIncrementer
  rw [parenMatch_of_suffix b (natRepr N) (natRepr_ne_nil N) (natRepr_isDigit N)]
  simp [digitsVal_natRepr]

/-!  Helper lemmas about template expansion. -/

theorem lookupVar_eq_none_of_not_mem_keys (l : List (String × JStr)) (n : String)
    (h : n ∉ l.map Prod.fst) : lookupVar l n = none := by
  induction l with
  | nil => rfl
  | cons p rest ih =>
    have h1 : ¬(n = p.1) := by
      intro he
      exact h (by simp [he])
    have h2 : n ∉ rest.map Prod.fst := by
      intro hm
      exact h (by simp [hm])
    simp [lookupVar, h1, ih h2]

theorem expandTemplateLiteral_error_of_unknown (vars : String → Option JStr) :
    ∀ (t : List TplPart) (n : String), n ∈ varNames t → vars n = none →
      ∃ e, expandTemplateLiteral vars t = .error e := by
  intro t
  induction t with
  | nil => intro n hn _; simp [varNames] at hn
  | cons p rest ih =>
    intro n hn hnone
    cases p with
    | lit s =>
      have hn' : n ∈ varNames rest := by simpa [varNames] using hn
      obtain ⟨e, he⟩ := ih n hn' hnone
      exact ⟨e, by simp [expandTemplateLiteral, he, Except.map]⟩
    | var m =>
      cases hv : vars m with
      | none => exact ⟨⟨m ++ " is not defined"⟩, by simp [expandTemplateLiteral, hv]⟩
      | some v =>
        have hnm : n ≠ m := by
          intro h
          rw [h, hv] at hnone
          exact Option.noConfusion hnone
        have hn' : n ∈ varNames rest := by
          have h := hn
          simp only [varNames, List.flatMap_cons, List.mem_append, List.mem_singleton] at h
          rcases h with h | h
          · exact absurd h hnm
          · exact h
        obtain ⟨e, he⟩ := ih n hn' hnone
        exact ⟨e, by simp [expandTemplateLiteral, hv, he, Except.map]⟩

theorem expandTemplateLiteral_ok_defined (vars : String → Option JStr) :
    ∀ (t : List TplPart) (s : JStr), expandTemplateLiteral vars t = .ok s →
      ∀ n ∈ varNames t, (vars n).isSome = true := by
  intro t
  induction t with
  | nil => intro s _ n hn; simp [varNames] at hn
  | cons p rest ih =>
    intro s hok n hn
    cases p with
    | lit txt =>
      cases hrest : expandTemplateLiteral vars rest with
      | error e => simp [expandTemplateLiteral, hrest, Except.map] at hok
      | ok r => exact ih r hrest n (by simpa [varNames] using hn)
    | var m =>
      cases hv : vars m with
      | none => simp [expandTemplateLiteral, hv] at hok
      | some v =>
        simp only [varNames, List.flatMap_cons, List.mem_append, List.mem_singleton] at hn
        rcases hn with rfl | hn'
        · simp [hv]
        · cases hrest : expandTemplateLiteral vars rest with
          | error e => simp [expandTemplateLiteral, hv, hrest, Except.map] at hok
          | ok r => exact ih r hrest n hn'

/-!  Helper lemmas about substring scanning (checksum laziness). -/

theorem exists_infix_of_infix_map {f : Char → Char} {nd t : List Char}
    (h : nd <:+: t.map f) : ∃ v, v <:+: t ∧ v.map f = nd := by
  obtain ⟨s, u, hsu⟩ := h
  refine ⟨(t.drop s.length).take nd.length, ?_, ?_⟩
  · refine ⟨t.take s.length, (t.drop s.length).drop nd.length, ?_⟩
    rw [List.append_assoc, List.take_append_drop, List.take_append_drop]
  · have hdrop : (t.map f).drop s.length = nd ++ u := by
      have : t.map f = s ++ (nd ++ u) := by rw [← hsu, List.append_assoc]
      rw [this, List.drop_left]
    calc ((t.drop s.length).take nd.length).map f
        = ((t.map f).drop s.length).take nd.length := by
          rw [List.map_take, List.map_drop]
      _ = (nd ++ u).take nd.length := by rw [hdrop]
      _ = nd := List.take_left nd u

theorem infix_map_of_infix {f : Char → Char} {v t : List Char}
    (h : v <:+: t) : v.map f <:+: t.map f := by
  obtain ⟨s, u, hsu⟩ := h
  exact ⟨s.map f, u.map f, by rw [← hsu]; simp⟩

/-!  Claim C1. -/

/-- Claim C1, counterexample: with `deleteOriginal = false` and
`overwriteDestination = true`, a candidate that matches the (single) input
path and exists on disk is rejected by the existence decider, although the
claim's "acceptable if and only if overwriteDestination is true" demands
acceptance. -/
theorem claim_C1_counterexample :
    ((["/a/b.txt".data].any fun ip => isSamePath "/a/b.txt".data ip) = true)
    ∧ ((fun p => p == "/a/b.txt".data) "/a/b.txt".data = true)
    ∧ decider (fun p => p == "/a/b.txt".data) ["/a/b.txt".data]
        false true "/a/b.txt".data = false :=
  ⟨rfl, rfl, rfl⟩

/-- Claim C1, amended: when `deleteOriginal` is false and the candidate both
matches an input path (per the textual same-path comparison) and exists on
disk, the candidate is never acceptable, whatever `overwriteDestination` is
(the decider returns `deleteOriginal`); the spec table's "acceptable only if
overwrite is allowed" thus holds only vacuously. -/
theorem claim_C1 (fs : JStr → Bool) (inputs : List JStr) (oD : Bool) (p : JStr)
    (hm : (inputs.any fun ip => isSamePath p ip) = true) (he : fs p = true) :
    decider fs inputs false oD p = false :=
  decider_of_match_exists fs inputs false oD p hm he

/-- Witness for `claim_C1` at a concrete occupied input path. -/
theorem claim_C1_witness :
    ((["/x/in.txt".data].any fun ip => isSamePath "/x/in.txt".data ip) = true)
    ∧ decider (fun p => p == "/x/in.txt".data) ["/x/in.txt".data]
        false true "/x/in.txt".data = false :=
  ⟨rfl, claim_C1 (fun p => p == "/x/in.txt".data) ["/x/in.txt".data] true
    "/x/in.txt".data rfl rfl⟩

/-!  Claim C2. -/

/-- Claim C2, counterexample: with two input paths `/a/b.txt` and
`/a/b 1.txt`, both existing, `deleteOriginal = false`,
`overwriteDestination = true` and the expanded candidate equal to the first
input, the resolution increments twice and returns `/a/b 2.txt`, not the
once-incremented `/a/b 1.txt` the claim requires. -/
theorem claim_C2_counterexample :
    ((["/a/b.txt".data, ("/a/b 1.txt").data].any
        fun ip => isSamePath "/a/b.txt".data ip) = true)
    ∧ ((fun p => p == "/a/b.txt".data || p == ("/a/b 1.txt").data)
        "/a/b.txt".data = true)
    ∧ saveAsPathResolve (fun p => p == "/a/b.txt".data || p == ("/a/b 1.txt").data)
        ["/a/b.txt".data, ("/a/b 1.txt").data] false true "space" "/a/b.txt".data 5
        = .ok (("/a/b 2.txt").data)
    ∧ (incrementPath "/a/b.txt".data
        ((incrementers "space").getD parenthesesIncrementer)).2 = ("/a/b 1.txt").data
    ∧ ("/a/b 2.txt").data ≠ ("/a/b 1.txt").data :=
  ⟨rfl, rfl, rfl, rfl, by decide⟩

/-- Claim C2, amended: with `deleteOriginal = false`,
`overwriteDestination = true`, a candidate that matches an input path and
exists, the returned destination is the candidate incremented at least once,
and exactly once provided the once-incremented candidate does not itself
same-path-match one of the input paths (as in typical single-input calls);
when it does, the search increments further. -/
theorem claim_C2 (fs : JStr → Bool) (inputPaths : List JStr) (incName : String)
    (out : JStr) (m : Nat) (hm : 1 ≤ m)
    (hmatch : (inputPaths.any fun ip => isSamePath out ip) = true)
    (hex : fs out = true)
    (hnext : (inputPaths.any fun ip =>
        isSamePath (incrementPath out
          ((incrementers incName).getD parenthesesIncrementer)).2 ip) = false) :
    saveAsPathResolve fs inputPaths false true incName out m
      = .ok (incrementPath out ((incrementers incName).getD parenthesesIncrementer)).2
    ∧ (incrementPath out ((incrementers incName).getD parenthesesIncrementer)).2 ≠ out := by
  have hne : (incrementPath out
      ((incrementers incName).getD parenthesesIncrementer)).2 ≠ out := by
    intro h
    rw [h] at hnext
    exact Bool.noConfusion (hmatch.symm.trans hnext)
  refine ⟨?_, hne⟩
  have hres : saveAsPathResolve fs inputPaths false true incName out m =
      unusedFilenameGo ((incrementers incName).getD parenthesesIncrementer)
        (decider fs inputPaths false true) m
        (incrementPath out ((incrementers incName).getD parenthesesIncrementer)).1 out := rfl
  rw [hres]
  have hd0 : decider fs inputPaths false true out = false :=
    decider_of_match_exists fs inputPaths false true out hmatch hex
  have hacc : decider fs inputPaths false true
      (cand ((incrementers incName).getD parenthesesIncrementer) out 1) = true := by
    show decider fs inputPaths false true
      (incrementPath out ((incrementers incName).getD parenthesesIncrementer)).2 = true
    cases hfs : fs (incrementPath out
        ((incrementers incName).getD parenthesesIncrementer)).2 with
    | false => exact decider_of_free _ _ _ _ _ hfs
    | true => exact decider_of_no_match_exists _ _ _ _ _ hnext hfs
  have hrej : ∀ j, j < 1 → decider fs inputPaths false true
      (cand ((incrementers incName).getD parenthesesIncrementer) out j) = false := by
    intro j hj
    interval_cases j
    exact hd0
  exact unusedFilenameGo_first_accept
    ((incrementers incName).getD parenthesesIncrementer)
    (decider fs inputPaths false true) 1 m _ out hm hacc hrej

/-- Witness for `claim_C2` at a concrete single-input call. -/
theorem claim_C2_witness :
    ((["/x/c.txt".data].any fun ip => isSamePath "/x/c.txt".data ip) = true)
    ∧ saveAsPathResolve (fun p => p == "/x/c.txt".data) ["/x/c.txt".data]
        false true "space" "/x/c.txt".data 1
        = .ok (incrementPath "/x/c.txt".data
            ((incrementers "space").getD parenthesesIncrementer)).2 :=
  ⟨rfl, (claim_C2 (fun p => p == "/x/c.txt".data) ["/x/c.txt".data] "space"
    "/x/c.txt".data 1 (le_refl 1) rfl rfl rfl).1⟩

/-!  Claim C3. -/

/-- Claim C3: with `deleteOriginal = true` and `overwriteDestination = true`,
a candidate path that matches an existing input path (as happens when the
requested output extension equals the original extension, so the expanded
candidate equals the input path) is accepted immediately: the resolution
returns the original path unchanged, with no increment. -/
theorem claim_C3 (fs : JStr → Bool) (inputs : List JStr) (incName : String)
    (out : JStr) (m : Nat)
    (hmatch : (inputs.any fun ip => isSamePath out ip) = true)
    (hex : fs out = true) :
    saveAsPathResolve fs inputs true true incName out m = .ok out := by
  have hres : saveAsPathResolve fs inputs true true incName out m =
      unusedFilenameGo ((incrementers incName).getD parenthesesIncrementer)
        (decider fs inputs true true) m
        (incrementPath out ((incrementers incName).getD parenthesesIncrementer)).1 out := rfl
  rw [hres]
  exact unusedFilenameGo_ok_of_accept _ _ _ _ _
    (decider_of_match_exists fs inputs true true out hmatch hex)

/-- Witness for `claim_C3` at a concrete existing input path. -/
theorem claim_C3_witness :
    ((["/x/d.png".data].any fun ip => isSamePath "/x/d.png".data ip) = true)
    ∧ saveAsPathResolve (fun p => p == "/x/d.png".data) ["/x/d.png".data]
        true true "space" "/x/d.png".data 3 = .ok "/x/d.png".data :=
  ⟨rfl, claim_C3 (fun p => p == "/x/d.png".data) ["/x/d.png".data] "space"
    "/x/d.png".data 3 rfl rfl⟩

/-!  Claim C4. -/

/-- Claim C4: the incrementer search evaluates candidates in order from the
un-incremented base path and returns the first candidate the decider accepts;
when every candidate within the try budget is rejected (the number of
rejections exceeds the budget), it fails with a `MaxTryError` carrying the
original (un-incremented) path — provided the base path is its own
un-incremented form along the search, which is what "un-incremented" means —
and the last path attempted. -/
theorem claim_C4 (incr : Incrementer) (d : JStr → Bool) (fp : JStr) (m : Nat) :
    (∀ k, k ≤ m → d (cand incr fp k) = true →
        (∀ j, j < k → d (cand incr fp j) = false) →
        unusedFilename fp (some incr) m d = .ok (cand incr fp k))
    ∧ ((∀ j, j ≤ m → d (cand incr fp j) = false) →
        (∀ k, k ≤ m → (incrementPath (cand incr fp k) incr).1 = fp) →
        unusedFilename fp (some incr) m d = .error ⟨fp, cand incr fp m⟩) := by
  constructor
  · intro k hk hacc hrej
    rw [unusedFilename_eq_go]
    exact unusedFilenameGo_first_accept incr d k m _ fp hk hacc hrej
  · intro hrej hstable
    rw [unusedFilename_eq_go]
    simp only [Option.getD_some]
    rw [unusedFilenameGo_exhaust incr d m (incrementPath fp incr).1 fp hrej]
    have horig : (if m = 0 then (incrementPath fp incr).1
        else (incrementPath (cand incr fp (m - 1)) incr).1) = fp := by
      cases m with
      | zero =>
        have h := hstable 0 (le_refl 0)
        simpa [cand] using h
      | succ m' =>
        rw [if_neg (Nat.succ_ne_zero m')]
        have h : m' + 1 - 1 = m' := by omega
        rw [h]
        exact hstable m' (by omega)
    rw [horig]

/-- Witness for `claim_C4`: the space-style search accepts the first
incremented candidate when the decider does, and exhausts a budget of one
with a `MaxTryError` carrying the base path and the last tried path. -/
theorem claim_C4_witness :
    unusedFilename "/a/b.txt".data (some (makeSeparatorIncrementer ' ')) 3
      (fun p => p == ("/a/b 1.txt").data) = .ok (("/a/b 1.txt").data)
    ∧ unusedFilename "/a/b.txt".data (some (makeSeparatorIncrementer ' ')) 1
      (fun _ => false) = .error ⟨"/a/b.txt".data, ("/a/b 1.txt").data⟩ := by
  constructor
  · have h := (claim_C4 (makeSeparatorIncrementer ' ')
      (fun p => p == ("/a/b 1.txt").data) "/a/b.txt".data 3).1 1 (by omega)
      (by decide) (by intro j hj; interval_cases j; decide)
    exact h.trans (congrArg Except.ok (by decide))
  · have h := (claim_C4 (makeSeparatorIncrementer ' ')
      (fun _ => false) "/a/b.txt".data 1).2 (fun j _ => rfl)
      (by intro k hk; interval_cases k <;> decide)
    refine h.trans ?_
    exact congrArg Except.error (congrArg (MaxTryError.mk "/a/b.txt".data) (by decide))

/-!  Claim C9. -/

/-- Claim C9: the decider accepts every candidate at which no file exists,
regardless of the `deleteOriginal` / `overwriteDestination` flags and of
input matching; consequently the resolution never increments past a free
candidate: if the k-th candidate is free (within the budget), the returned
path is the j-th candidate for some `j ≤ k`. -/
theorem claim_C9 :
    (∀ (fs : JStr → Bool) (inputs : List JStr) (dO oD : Bool) (p : JStr),
        fs p = false → decider fs inputs dO oD p = true)
    ∧ (∀ (fs : JStr → Bool) (inputs : List JStr) (dO oD : Bool) (incName : String)
        (out : JStr) (m k : Nat), k ≤ m →
        fs (cand ((incrementers incName).getD parenthesesIncrementer) out k) = false →
        ∃ j, j ≤ k ∧ saveAsPathResolve fs inputs dO oD incName out m
            = .ok (cand ((incrementers incName).getD parenthesesIncrementer) out j)) := by
  constructor
  · exact fun fs inputs dO oD p hf => decider_of_free fs inputs dO oD p hf
  · intro fs inputs dO oD incName out m k hk hfree
    have hres : saveAsPathResolve fs inputs dO oD incName out m =
        unusedFilenameGo ((incrementers incName).getD parenthesesIncrementer)
          (decider fs inputs dO oD) m
          (incrementPath out ((incrementers incName).getD parenthesesIncrementer)).1 out := rfl
    have hacc : decider fs inputs dO oD
        (cand ((incrementers incName).getD parenthesesIncrementer) out k) = true :=
      decider_of_free _ _ _ _ _ hfree
    obtain ⟨j, hj, hok⟩ := unusedFilenameGo_exists_ok
      ((incrementers incName).getD parenthesesIncrementer)
      (decider fs inputs dO oD) k m
      (incrementPath out ((incrementers incName).getD parenthesesIncrementer)).1 out hk hacc
    exact ⟨j, hj, by rw [hres, hok]⟩

/-- Witness for `claim_C9`: a free path is accepted, and with the base
occupied but its first increment free the search stops at or before it. -/
theorem claim_C9_witness :
    decider (fun _ => false) [] false false "/q/a.txt".data = true
    ∧ ∃ j, j ≤ 1 ∧ saveAsPathResolve (fun p => p == "/q/a.txt".data)
        ["/q/a.txt".data] false false "space" "/q/a.txt".data 4
        = .ok (cand ((incrementers "space").getD parenthesesIncrementer)
            "/q/a.txt".data j) :=
  ⟨claim_C9.1 (fun _ => false) [] false false "/q/a.txt".data rfl,
   claim_C9.2 (fun p => p == "/q/a.txt".data) ["/q/a.txt".data] false false "space"
     "/q/a.txt".data 4 1 (by omega) (by decide)⟩

/-!  Claim C10. -/

/-- Claim C10: for every incrementer option value outside
`space`/`dash`/`underscore` — including the recognized `parentheses` and any
unrecognized string — the lookup yields `none` (`undefined`), and the search
then behaves exactly as with the parentheses incrementer, which is its
default for an absent incrementer. -/
theorem claim_C10 (name : String)
    (h : name ≠ "space" ∧ name ≠ "dash" ∧ name ≠ "underscore") :
    incrementers name = none
    ∧ ∀ (fp : JStr) (m : Nat) (d : JStr → Bool),
        unusedFilename fp (incrementers name) m d
          = unusedFilename fp (some parenthesesIncrementer) m d := by
  have hnone : incrementers name = none := by
    simp [incrementers, h.1, h.2.1, h.2.2]
  exact ⟨hnone, fun fp m d => by rw [hnone]; rfl⟩

/-- Witness for `claim_C10` at the recognized value `parentheses`. -/
theorem claim_C10_witness :
    incrementers "parentheses" = none
    ∧ unusedFilename "/y/e.txt".data (incrementers "parentheses") 2 (fun _ => true)
        = unusedFilename "/y/e.txt".data (some parenthesesIncrementer) 2 (fun _ => true) :=
  ⟨(claim_C10 "parentheses" (by decide)).1,
   (claim_C10 "parentheses" (by decide)).2 "/y/e.txt".data 2 (fun _ => true)⟩

/-!  Claim C5. -/

/-- Claim C5: the incrementer styles produce exactly the documented suffixes
(`name 1.ext`, `name-1.ext`, `name_1.ext`, `name (1).ext`); a candidate
filename already carrying a parseable numeric suffix `N` in the active style
increments to suffix `N + 1` (for every base and every `N`); and a directory
occupied by `name`, `name 1`, `name 2`, `name 3` yields `name 4`. -/
theorem claim_C5 :
    (incrementPath "/d/name.ext".data (makeSeparatorIncrementer ' ')
        = ("/d/name.ext".data, ("/d/name 1.ext").data))
    ∧ (incrementPath "/d/name.ext".data (makeSeparatorIncrementer '-')
        = ("/d/name.ext".data, ("/d/name-1.ext").data))
    ∧ (incrementPath "/d/name.ext".data (makeSeparatorIncrementer '_')
        = ("/d/name.ext".data, ("/d/name_1.ext").data))
    ∧ (incrementPath "/d/name.ext".data parenthesesIncrementer
        = ("/d/name.ext".data, ("/d/name (1).ext").data))
    ∧ (∀ (b ext : JStr) (N : Nat),
        makeSeparatorIncrementer ' ' (b ++ ' ' :: natRepr N) ext
          = (b ++ ext, jsTrim b ++ ' ' :: (natRepr (N + 1) ++ ext)))
    ∧ (∀ (b ext : JStr) (N : Nat),
        makeSeparatorIncrementer '-' (b ++ '-' :: natRepr N) ext
          = (b ++ ext, jsTrim b ++ '-' :: (natRepr (N + 1) ++ ext)))
    ∧ (∀ (b ext : JStr) (N : Nat),
        makeSeparatorIncrementer '_' (b ++ '_' :: natRepr N) ext
          = (b ++ ext, jsTrim b ++ '_' :: (natRepr (N + 1) ++ ext)))
    ∧ (∀ (b ext : JStr) (N : Nat),
        parenthesesIncrementer (b ++ '(' :: (natRepr N ++ [')'])) ext
          = (jsTrim b ++ ext, jsTrim b ++ ' ' :: '(' :: (natRepr (N + 1) ++ ')' :: ext)))
    ∧ unusedFilename "/d/name".data (some (makeSeparatorIncrementer ' ')) 9
        (pathIsFree fun p => ["/d/name".data, ("/d/name 1").data,
          ("/d/name 2").data, ("/d/name 3").data].contains p)
        = .ok (("/d/name 4").data) := by
  refine ⟨rfl, rfl, rfl, rfl, ?_, ?_, ?_, ?_, rfl⟩
  · exact fun b ext N => makeSeparatorIncrementer_suffix ' ' (by rfl) b ext N
  · exact fun b ext N => makeSeparatorIncrementer_suffix '-' (by rfl) b ext N
  · exact fun b ext N => makeSeparatorIncrementer_suffix '_' (by rfl) b ext N
  · exact fun b ext N => parenthesesIncrementer_suffix b ext N

/-!  Claim C6. -/

/-- Claim C6: a template referencing a variable name outside the recognized
set — the path-part names (with the `time`/`uid` utils), the platform-folder
and checksum stub names, and the caller extras — makes both the validation
entry point (`checkSaveAsPathOptions`) and the expansion step of the full
resolve operation fail with a `TemplateError`; and a successful expansion
defines every referenced variable, so an unknown variable is never silently
replaced by an empty string. -/
theorem claim_C6 (destination : List TplPart) (extraVariables : List (String × JStr))
    (n : String) (hn : n ∈ varNames destination)
    (hp : n ∉ pathPartNames) (hs : n ∉ templateStubNames)
    (hx : n ∉ extraVariables.map Prod.fst) :
    (∃ e, checkSaveAsPathOptions destination extraVariables = .error e)
    ∧ (∀ (inputPath : JStr) (outputExtension : Option JStr),
        ∃ e, expandTemplate inputPath outputExtension destination extraVariables = .error e)
    ∧ (∀ (vars : String → Option JStr) (t : List TplPart) (s : JStr),
        expandTemplateLiteral vars t = .ok s → ∀ v ∈ varNames t, (vars v).isSome = true) := by
  have hbasekeys : ∀ (ip : JStr) (oe : Option JStr),
      (expandTemplateVars ip oe).map Prod.fst = pathPartNames := fun ip oe => rfl
  have hstubkeys : stubPairs.map Prod.fst = templateStubNames := by decide
  have hexp : ∀ (ip : JStr) (oe : Option JStr) (extras : List (String × JStr)),
      n ∉ extras.map Prod.fst →
      lookupVar (extras ++ expandTemplateVars ip oe) n = none := by
    intro ip oe extras hxx
    apply lookupVar_eq_none_of_not_mem_keys
    intro hmem
    rw [List.map_append, List.mem_append] at hmem
    rcases hmem with h | h
    · exact hxx h
    · rw [hbasekeys ip oe] at h
      exact hp h
  have hcheckkeys : n ∉ (extraVariables ++ stubPairs).map Prod.fst := by
    intro hmem
    rw [List.map_append, List.mem_append] at hmem
    rcases hmem with h | h
    · exact hx h
    · rw [hstubkeys] at h
      exact hs h
  refine ⟨?_, ?_, ?_⟩
  · obtain ⟨e, he⟩ := expandTemplateLiteral_error_of_unknown
      (lookupVar ((extraVariables ++ stubPairs) ++
        expandTemplateVars "/mock/path/to/file.png".data (some "jpg".data)))
      destination n hn
      (hexp "/mock/path/to/file.png".data (some "jpg".data)
        (extraVariables ++ stubPairs) hcheckkeys)
    refine ⟨e, ?_⟩
    unfold checkSaveAsPathOptions expandTemplate
    rw [he]
    rfl
  · intro ip oe
    obtain ⟨e, he⟩ := expandTemplateLiteral_error_of_unknown
      (lookupVar (extraVariables ++ expandTemplateVars ip oe))
      destination n hn (hexp ip oe extraVariables hx)
    exact ⟨e, he⟩
  · exact expandTemplateLiteral_ok_defined

/-- Witness for `claim_C6` on the template referencing only `doesNotExist`. -/
theorem claim_C6_witness :
    ("doesNotExist" ∈ varNames [TplPart.var "doesNotExist"])
    ∧ ((∃ e, checkSaveAsPathOptions [TplPart.var "doesNotExist"] [] = .error e)
      ∧ (∀ (inputPath : JStr) (outputExtension : Option JStr),
          ∃ e, expandTemplate inputPath outputExtension [TplPart.var "doesNotExist"] []
            = .error e)
      ∧ (∀ (vars : String → Option JStr) (t : List TplPart) (s : JStr),
          expandTemplateLiteral vars t = .ok s →
            ∀ v ∈ varNames t, (vars v).isSome = true)) :=
  ⟨by simp [varNames],
   claim_C6 [TplPart.var "doesNotExist"] [] "doesNotExist"
     (by simp [varNames]) (by decide) (by decide) (by decide)⟩

/-!  Claim C7. -/

/-- Claim C7: for each of the five checksum algorithm names, the checksum
provider is invoked at most once per call (the used-algorithm list contains it
at most once); it is used exactly when the algorithm's name occurs, in any
letter case, as a substring of the raw template; and when used, the variable
mapping receives the digest under the lowercase name and the uppercased
digest under the uppercase name. -/
theorem claim_C7 (digestOf : String → JStr) (template : JStr) (name : String)
    (hmem : name ∈ checksumNames) :
    ((checksumAlgosUsed template).count name ≤ 1)
    ∧ (name ∈ checksumAlgosUsed template ↔
        ∃ v, v <:+: template ∧ toLowerJ v = name.data)
    ∧ (name ∈ checksumAlgosUsed template →
        (name, digestOf name) ∈ checksumVariables digestOf template
        ∧ (toUpperS name, toUpperJ (digestOf name)) ∈ checksumVariables digestOf template) := by
  refine ⟨?_, ?_, ?_⟩
  · have hsub : List.Sublist (checksumAlgosUsed template) checksumNames :=
      List.filter_sublist _
    have hle := hsub.count_le name
    have h1 : checksumNames.count name = 1 := by fin_cases hmem <;> decide
    omega
  · constructor
    · intro h
      have hdec := (List.mem_filter.mp h).2
      have hinf : name.data <:+: template.map Char.toLower := of_decide_eq_true hdec
      obtain ⟨v, hv, hmap⟩ := exists_infix_of_infix_map hinf
      exact ⟨v, hv, hmap⟩
    · rintro ⟨v, hv, hmap⟩
      refine List.mem_filter.mpr ⟨hmem, ?_⟩
      have hmap' : v.map Char.toLower = name.data := hmap
      exact decide_eq_true (hmap' ▸ infix_map_of_infix hv)
  · intro h
    constructor
    · exact List.mem_flatMap.mpr ⟨name, h, by simp⟩
    · exact List.mem_flatMap.mpr ⟨name, h, by simp⟩

/-- Witness for `claim_C7` on a template mentioning `MD5` in upper case. -/
theorem claim_C7_witness :
    ("md5" ∈ checksumNames)
    ∧ (((checksumAlgosUsed ("out-MD5-name").data).count "md5" ≤ 1)
      ∧ ("md5" ∈ checksumAlgosUsed ("out-MD5-name").data ↔
          ∃ v, v <:+: ("out-MD5-name").data ∧ toLowerJ v = "md5".data)
      ∧ ("md5" ∈ checksumAlgosUsed ("out-MD5-name").data →
          ("md5", (fun n => (n ++ "-digest").data) "md5")
              ∈ checksumVariables (fun n => (n ++ "-digest").data) ("out-MD5-name").data
          ∧ (toUpperS "md5", toUpperJ ((fun n => (n ++ "-digest").data) "md5"))
              ∈ checksumVariables (fun n => (n ++ "-digest").data) ("out-MD5-name").data)) :=
  ⟨by decide,
   claim_C7 (fun n => (n ++ "-digest").data) ("out-MD5-name").data "md5" (by decide)⟩

/-!  Claim C8. -/

/-- Claim C8: in the final move of the temporary artifact, a rename failure
with the cross-device code `EXDEV` is handled by the recursive-copy-then-
delete fallback and not surfaced as an error, while a rename failure with any
other code propagates to the caller unchanged (and a successful rename simply
renames). -/
theorem claim_C8 (e : FsError) :
    moveTmpToOutputPath none = .ok .renamed
    ∧ (e.code = "EXDEV" → moveTmpToOutputPath (some e) = .ok .copiedThenDeleted)
    ∧ (e.code ≠ "EXDEV" → moveTmpToOutputPath (some e) = .error e) := by
  refine ⟨rfl, ?_, ?_⟩
  · intro h
    simp [moveTmpToOutputPath, h]
  · intro h
    simp [moveTmpToOutputPath, h]

/-- Witness for `claim_C8` at the codes `EXDEV` and `EACCES`. -/
theorem claim_C8_witness :
    moveTmpToOutputPath none = .ok .renamed
    ∧ moveTmpToOutputPath (some ⟨"EXDEV"⟩) = .ok .copiedThenDeleted
    ∧ moveTmpToOutputPath (some ⟨"EACCES"⟩) = .error ⟨"EACCES"⟩ :=
  ⟨(claim_C8 ⟨"EXDEV"⟩).1, (claim_C8 ⟨"EXDEV"⟩).2.1 rfl,
   (claim_C8 ⟨"EACCES"⟩).2.2 (by decide)⟩

end SaveAsPath
